import Mathlib

/-!
Verification of the document-ingestion pipeline of this repository
(text chunking service, PDF table reconstruction, batched embedding with
retry/degradation, duplicate detection, ingestion orchestration).

Strings are embedded as `List Char` (JavaScript strings indexed by code
unit; all source inputs of interest are ASCII, where the two coincide).
JavaScript numeric comparisons against fractional thresholds
(`p > chunkSize * 0.6` etc.) are embedded as exact integer comparisons
(`5 * p > 3 * chunkSize`); for the integer magnitudes the code can reach,
IEEE-double and exact rational comparison agree.
-/

namespace Finetuneana

/-- The JavaScript `\s` whitespace class (as used by `trim`, `split(/\s{2,}/)`
and the `[.!?]\s+` sentence regex in the chunking service). -/
def isWs (c : Char) : Bool :=
  c = ' ' ∨ c = '\t' ∨ c = '\n' ∨ c = '\r' ∨ c = '\x0b' ∨ c = '\x0c' ∨
  c.val = 0xa0 ∨ c.val = 0x1680 ∨ (0x2000 ≤ c.val ∧ c.val ≤ 0x200a) ∨
  c.val = 0x2028 ∨ c.val = 0x2029 ∨ c.val = 0x202f ∨ c.val = 0x205f ∨
  c.val = 0x3000 ∨ c.val = 0xfeff

/-- JavaScript `String.prototype.trim`: drop whitespace from both ends. -/
def jsTrim (l : List Char) : List Char :=
  ((l.dropWhile isWs).reverse.dropWhile isWs).reverse

/-- JavaScript `str.split(sep)` for a single-character separator
(preserves empty fields, always returns at least one field). -/
def splitOnChar (sep : Char) : List Char → List (List Char)
  | [] => [[]]
  | c :: rest =>
    match splitOnChar sep rest with
    | [] => [[]]
    | l :: ls => if c = sep then [] :: l :: ls else (c :: l) :: ls

/-- JavaScript `str.lastIndexOf(pat)`: the largest index at which `pat`
occurs as a sublist, if any. -/
def lastIndexOfPat (l pat : List Char) : Option Nat :=
  ((List.range (l.length + 1)).filter (fun i => pat.isPrefixOf (l.drop i))).max?

/-- End position of the last match of the global regex `[.!?]\s+` in `l`
(the source scans all matches with `exec` and keeps
`match.index + match[0].length` of the last one).  The last match starts at
the largest index holding `.`, `!` or `?` followed by at least one
whitespace character, and extends over the maximal whitespace run. -/
def lastSentenceEnd (l : List Char) : Option Nat :=
  (((List.range l.length).filter (fun i =>
      (l.getD i ' ' = '.' ∨ l.getD i ' ' = '!' ∨ l.getD i ' ' = '?') &&
      match l.drop (i+1) with
      | c :: _ => isWs c
      | [] => false)).max?).map
    (fun i => i + 1 + ((l.drop (i+1)).takeWhile isWs).length)

/-- A chunk produced by the chunking service
(`Chunk` in `src/unnamed/part_000`). -/
structure Chunk where
  id : String
  text : List Char
  startIndex : Nat
  endIndex : Nat
  page : Option Nat
  deriving Repr, DecidableEq

/-- `ChunkingConfig` of the chunking service. -/
structure ChunkingConfig where
  chunkSize : Nat
  overlap : Nat
  useHeadings : Bool
  deriving Repr, DecidableEq

/-- The boundary-selection step of `chunkSimple`: given the window
`[startIndex, endIndex)`, compute `actualEndIndex` by the
paragraph / sentence / newline / space priority ladder. -/
def actualEnd (text : List Char) (chunkSize startIndex endIndex : Nat) : Nat :=
  if endIndex < text.length then
    let w := (text.drop startIndex).take (endIndex - startIndex)
    match lastIndexOfPat w ['\n', '\n'] with
    | some p =>
      if 5 * p > 3 * chunkSize then startIndex + p + 2
      else actualEndRest text chunkSize startIndex endIndex w
    | none => actualEndRest text chunkSize startIndex endIndex w
  else endIndex
where
  /-- sentence / newline / space fallbacks (`lastParagraph` rejected). -/
  actualEndRest (text : List Char) (chunkSize startIndex endIndex : Nat)
      (w : List Char) : Nat :=
    match lastSentenceEnd w with
    | some v =>
      if 2 * v > chunkSize then startIndex + v
      else actualEndNl text chunkSize startIndex endIndex w
    | none => actualEndNl text chunkSize startIndex endIndex w
  /-- newline / space fallbacks (sentence rejected). -/
  actualEndNl (text : List Char) (chunkSize startIndex endIndex : Nat)
      (w : List Char) : Nat :=
    match lastIndexOfPat w ['\n'] with
    | some p =>
      if 2 * p > chunkSize then startIndex + p + 1
      else actualEndSp text chunkSize startIndex endIndex w
    | none => actualEndSp text chunkSize startIndex endIndex w
  /-- space fallback / hard cut (newline rejected). -/
  actualEndSp (_text : List Char) (chunkSize startIndex endIndex : Nat)
      (w : List Char) : Nat :=
    match lastIndexOfPat w [' '] with
    | some p => if 10 * p > 7 * chunkSize then startIndex + p + 1 else endIndex
    | none => endIndex

/-- The `while (startIndex < text.length)` loop of `chunkSimple`, with
explicit fuel (one unit per loop iteration).  `none` means the loop did not
finish within `fuel` iterations. -/
def chunkSimpleGo (text : List Char) (chunkSize overlap : Nat)
    (page : Option Nat) : Nat → Nat → Nat → Option (List Chunk)
  | fuel, startIndex, chunkId =>
    if startIndex < text.length then
      match fuel with
      | 0 => none
      | fuel + 1 =>
        let endIndex := min (startIndex + chunkSize) text.length
        let aEnd := actualEnd text chunkSize startIndex endIndex
        let chunkTextFinal := jsTrim ((text.drop startIndex).take (aEnd - startIndex))
        if chunkTextFinal.length > 50 then
          let c : Chunk :=
            { id := "chunk-" ++ toString chunkId, text := chunkTextFinal,
              startIndex := startIndex, endIndex := aEnd, page := page }
          let s' := if aEnd - overlap ≤ startIndex then aEnd else aEnd - overlap
          (chunkSimpleGo text chunkSize overlap page fuel s' (chunkId + 1)).map (c :: ·)
        else
          chunkSimpleGo text chunkSize overlap page fuel aEnd chunkId
    else some []

/-- `chunkSimple` of the chunking service, run with fuel `text.length`
(enough for every terminating configuration; `none` models divergence). -/
def chunkSimple (text : List Char) (chunkSize overlap : Nat)
    (page : Option Nat) : Option (List Chunk) :=
  chunkSimpleGo text chunkSize overlap page text.length 0 0

/-- `/^[A-Z\s#]+$/.test(line)`: the whole line is made of capitals,
whitespace and `#`, and is non-empty. -/
def isAllCapsLine (l : List Char) : Bool :=
  decide (l ≠ []) && l.all (fun c => ('A' ≤ c ∧ c ≤ 'Z') ∨ isWs c ∨ c = '#')

/-- `/^#{1,6}\s/.test(line)`: one to six leading `#` characters followed by
a whitespace character. -/
def isMarkdownHeading (l : List Char) : Bool :=
  let h := (l.takeWhile (· = '#')).length
  1 ≤ h && h ≤ 6 &&
    match l.drop h with
    | c :: _ => isWs c
    | [] => false

/-- The heading test of `chunkWithHeadings` on a trimmed line
(`restNonEmpty` embeds `i < lines.length - 1`). -/
def isHeadingLine (t : List Char) (restNonEmpty : Bool) : Bool :=
  (decide (t.length < 100) && isAllCapsLine t) || isMarkdownHeading t ||
  (decide (t.length < 80) && decide (t.length > 0) && restNonEmpty)

/-- The heading-detection loop of `chunkWithHeadings`: character offsets of
the heading lines (`cur` is `currentIndex`, advanced by the untrimmed line
length plus one for the newline). -/
def headingOffsetsGo : List (List Char) → Nat → List Nat
  | [], _ => []
  | l :: rest, cur =>
    (if isHeadingLine (jsTrim l) (decide (rest ≠ [])) then [cur] else []) ++
      headingOffsetsGo rest (cur + l.length + 1)

/-- Offsets of detected heading lines in `text`. -/
def headingOffsets (text : List Char) : List Nat :=
  headingOffsetsGo (splitOnChar '\n' text) 0

/-- The section loop of `chunkWithHeadings` over the heading offsets:
each section runs from its heading offset to the next heading offset (or
the end of the text); oversized sections are re-chunked with `chunkSimple`
(offsets translated back), small sections become one trimmed chunk.
Returns the chunks and the next global chunk id; `none` propagates
`chunkSimple` divergence. -/
def sectionEnd (text : List Char) : List Nat → Nat
  | h2 :: _ => h2
  | [] => text.length

def sectionsGo (text : List Char) (chunkSize overlap : Nat)
    (page : Option Nat) : List Nat → Nat → Option (List Chunk × Nat)
  | [], chunkId => some ([], chunkId)
  | h :: rest, chunkId =>
    let hEnd := sectionEnd text rest
    let sectionText := (text.drop h).take (hEnd - h)
    if sectionText.length > chunkSize then
      match chunkSimple sectionText chunkSize overlap page with
      | none => none
      | some sectionChunks =>
        let relabeled := (sectionChunks.enum).map (fun (j, c) =>
          { c with id := "chunk-" ++ toString (chunkId + j),
                   startIndex := c.startIndex + h,
                   endIndex := c.endIndex + h })
        match sectionsGo text chunkSize overlap page rest (chunkId + sectionChunks.length) with
        | none => none
        | some (cs, id') => some (relabeled ++ cs, id')
    else
      let c : Chunk :=
        { id := "chunk-" ++ toString chunkId, text := jsTrim sectionText,
          startIndex := h, endIndex := hEnd, page := page }
      match sectionsGo text chunkSize overlap page rest (chunkId + 1) with
      | none => none
      | some (cs, id') => some (c :: cs, id')

/-- `chunkWithHeadings` of the chunking service. -/
def chunkWithHeadings (text : List Char) (chunkSize overlap : Nat)
    (page : Option Nat) : Option (List Chunk) :=
  match headingOffsets text with
  | [] => chunkSimple text chunkSize overlap page
  | h :: rest => (sectionsGo text chunkSize overlap page (h :: rest) 0).map (·.1)

/-- `chunkText` of the chunking service. -/
def chunkText (text : List Char) (config : ChunkingConfig)
    (page : Option Nat) : Option (List Chunk) :=
  if config.useHeadings then
    chunkWithHeadings text config.chunkSize config.overlap page
  else
    chunkSimple text config.chunkSize config.overlap page

/-! ## PDF parser service: table-structure reconstruction -/

/-- JavaScript `str.split(/\s{2,}/)`: split on maximal runs of two or more
whitespace characters (a single whitespace character stays in its field).
`fuel` makes the recursion structural; every step consumes at least one
character, so `fuel = length` (as passed by `splitWsRuns`) never runs
out. -/
def splitWsRunsF : Nat → List Char → List Char → List (List Char)
  | _, [], acc => [acc.reverse]
  | 0, _ :: _, acc => [acc.reverse]
  | fuel + 1, c :: rest, acc =>
    if isWs c && (match rest with | r :: _ => isWs r | [] => false) then
      acc.reverse :: splitWsRunsF fuel (rest.dropWhile isWs) []
    else
      splitWsRunsF fuel rest (c :: acc)

/-- `str.split(/\s{2,}/)` on a whole line. -/
def splitWsRuns (l : List Char) (acc : List Char) : List (List Char) :=
  splitWsRunsF (l.length + acc.length) l acc

/-- Fields of a line split on tabs, empty (after trim) fields removed
(`line.split('\t').filter(col => col.trim())`). -/
def tabFields (l : List Char) : List (List Char) :=
  (splitOnChar '\t' l).filter (fun c => decide (jsTrim c ≠ []))

/-- Fields of a line split on runs of 2+ whitespace, empty fields removed
(`line.split(/\s{2,}/).filter(col => col.trim())`). -/
def spaceFields (l : List Char) : List (List Char) :=
  (splitWsRuns l []).filter (fun c => decide (jsTrim c ≠ []))

/-- The table-row-candidate test of `enhanceTableText` on a trimmed line:
at least 2 tab-separated fields, or at least 3 space-run-separated fields
on a line longer than 40 characters. -/
def looksLikeTableRow (l : List Char) : Bool :=
  (tabFields l).length ≥ 2 ||
  ((spaceFields l).length ≥ 3 && decide (l.length > 40))

/-- One step of the `maxWidths` accumulation of `formatTable`: fold one
row's columns into the positional width list
(`if (!maxWidths[idx] || col.length > maxWidths[idx]) maxWidths[idx] =
Math.min(col.length, 50)`). -/
def updateWidths : List Nat → List (List Char) → List Nat
  | ws, [] => ws
  | [], col :: cols => min col.length 50 :: updateWidths [] cols
  | w :: ws, col :: cols =>
    (if w = 0 ∨ col.length > w then min col.length 50 else w) ::
      updateWidths ws cols

/-- Column cells of one table row in `formatTable`: split on tabs, trim,
and pad with empty cells up to `expectedColumns` when that argument was
passed (truthy). -/
def tableCols (expected : Option Nat) (row : List Char) : List (List Char) :=
  let cols := (splitOnChar '\t' row).map jsTrim
  match expected with
  | some ec => cols ++ List.replicate (ec - cols.length) []
  | none => cols

/-- Render one row of `formatTable`: cap/ellipsize each cell at its column
width, pad with spaces, join with `" | "`. -/
def renderRow (maxWidths : List Nat) (row : List (List Char)) : List Char :=
  List.intercalate (' ' :: '|' :: [' ']) ((row.enum).map (fun (idx, col) =>
    let width := maxWidths.getD idx 0
    let displayCol :=
      if col.length > width then col.take (width - 3) ++ ['.', '.', '.']
      else col
    displayCol ++ List.replicate (width - displayCol.length) ' '))

/-- The dash separator row of `formatTable` (one run of dashes per column
of the first row, capped at 20, joined with `"-|-"`). -/
def separatorRow (maxWidths : List Nat) (firstRow : List (List Char)) : List Char :=
  List.intercalate ('-' :: '|' :: ['-']) ((firstRow.enum).map (fun (idx, _) =>
    List.replicate (min (maxWidths.getD idx 0) 20) '-'))

/-- `formatTable` of the PDF parser service: normalized table rows in, the
formatted lines out.  `expected = none` models a call without the
`expectedColumns` argument. -/
def formatTable (rows : List (List Char)) (expected : Option Nat) :
    List (List Char) :=
  let tableData := rows.map (tableCols expected)
  let maxWidths := tableData.foldl updateWidths []
  match tableData with
  | [] => []
  | r0 :: rest =>
    renderRow maxWidths r0 ::
      (if rest ≠ [] then [separatorRow maxWidths r0] else []) ++
      rest.map (renderRow maxWidths)

/-- The line scan of `enhanceTableText`.  `prev` is the previous trimmed
line (`''` at the start), `inTable`/`rows`/`colCount` the running table
state.  A blank line finalizes the current table **without** passing the
column count (`this.formatTable(tableRows)`); a non-table line and the end
of the document finalize it with the column count. -/
def enhanceGo : List Char → List (List Char) → Bool → List (List Char) →
    Nat → List (List Char)
  | _, [], inTable, rows, colCount =>
    if inTable && decide (rows ≠ []) then formatTable rows (some colCount) else []
  | prev, l :: rest, inTable, rows, colCount =>
    let line := jsTrim l
    let nextLine := jsTrim ((rest.headD []))
    if line = [] then
      (if inTable && decide (rows ≠ []) then formatTable rows none else []) ++
        [] :: enhanceGo line rest false [] 0
    else
      let cand := looksLikeTableRow line
      let nextCand := decide (nextLine ≠ []) && looksLikeTableRow nextLine
      let prevCand := decide (prev ≠ []) && looksLikeTableRow prev
      if cand && (nextCand || prevCand || inTable) then
        let tabs := tabFields line
        let hasTabs : Bool := tabs.length ≥ 2
        let fields := if hasTabs then tabs else spaceFields line
        let row := List.intercalate ['\t'] (fields.map jsTrim)
        let colCount' := max colCount fields.length
        enhanceGo line rest true (rows ++ [row]) colCount'
      else
        (if inTable && decide (rows ≠ []) then formatTable rows (some colCount)
         else []) ++
          line :: enhanceGo line rest false [] 0

/-- `enhanceTableText` of the PDF parser service. -/
def enhanceTableText (text : List Char) : List Char :=
  List.intercalate ['\n'] (enhanceGo [] (splitOnChar '\n' text) false [] 0)

/-! ## Parser dispatch (`parseFile`) and the route's parse phase -/

/-- Result of a parser (`{ text, pageCount }`; metadata omitted — no claim
inspects it). -/
structure Parsed where
  text : List Char
  pageCount : Nat
  deriving Repr, DecidableEq

/-- `filename.toLowerCase().split('.').pop()` in `parseFile`
(ASCII lowercasing, via the character list so that it evaluates in the
kernel). -/
def fileExtension (filename : String) : String :=
  String.mk ((splitOnChar '.' (filename.toList.map Char.toLower)).getLastD [])

/-- `parseFile` of the PDF parser service: dispatch on the file extension.
The format-specific parsers call external libraries (pdf-parse, mammoth,
csv-parse), so their outcomes are parameters; the unsupported-extension
branch throws `Unsupported file type: <ext>`. -/
def parseFile (pdfRes docxRes csvRes : Except String Parsed)
    (filename : String) : Except String Parsed :=
  match fileExtension filename with
  | "pdf" => pdfRes
  | "docx" => docxRes
  | "doc" => docxRes
  | "csv" => csvRes
  | ext => .error ("Unsupported file type: " ++ ext)

/-- Placeholder text substituted by the ingest route when a successful
parse returned empty text. -/
def emptyTextPlaceholder : List Char :=
  "No text content extracted from this file. It may contain only images or be encrypted.".toList

/-- The parse phase of `POST /api/ingest-from-blob` (the
`try { parsed = parseFile ... } catch { ... }` block): never fails — every
parse error is converted into placeholder text plus warnings.
`fallbackRes` is the outcome of the fallback `parsePDF` call. -/
def routeParsePhase (parseRes fallbackRes : Except String Parsed)
    (filename : String) : Parsed × List String :=
  match parseRes with
  | .ok parsed =>
    if parsed.text.length = 0 then
      ({ text := emptyTextPlaceholder,
         pageCount := if parsed.pageCount = 0 then 1 else parsed.pageCount },
       ["File appears to be empty or could not extract text"])
    else (parsed, [])
  | .error msg =>
    let w0 := "Initial parse failed: " ++ msg
    if (".pdf".toList).isSuffixOf (filename.toList.map Char.toLower) then
      match fallbackRes with
      | .ok fb =>
        if (jsTrim fb.text).length > 0 then
          (fb, [w0, "Used fallback parsing method - some formatting may be lost"])
        else
          ({ text := ("[File: " ++ filename ++ "] - Unable to extract text content. File may be corrupted, encrypted, or image-only. Original error: " ++ msg).toList,
             pageCount := 1 },
           [w0, "Could not extract text - created placeholder entry."])
      | .error _ =>
        ({ text := ("[File: " ++ filename ++ "] - Unable to extract text content. File may be corrupted, encrypted, or image-only. Original error: " ++ msg).toList,
           pageCount := 1 },
         [w0, "Could not extract text - created placeholder entry."])
    else
      ({ text := ("[File: " ++ filename ++ "] - Parsing failed: " ++ msg ++ ".").toList,
         pageCount := 1 },
       [w0, "Parsing failed - created placeholder entry."])

/-! ## Embedding stage: `generateEmbeddingsBatch` plus the route's
retry/degradation ladder -/

/-- An error raised by the embedding provider.  `credential` records
whether the failure reason indicates invalid credentials/configuration
(the code never inspects it). -/
structure EmbErr where
  msg : String
  credential : Bool
  deriving Repr, DecidableEq

/-- Outcome oracle for `client.embeddings.create`, indexed by the global
call number (embedding vectors as lists of rationals). -/
def EmbOracle : Type :=
  Nat → List (List Char) → Except EmbErr (List (List ℚ))

/-- Slice a list into consecutive batches, as the
`for (i = 0; i < xs.length; i += batchSize)` / `slice(i, i + batchSize)`
loops do (every call site passes a positive batch size).  `fuel` makes the
recursion structural; each step consumes at least one element, so
`fuel = length` (as passed by `sliceBatches`) never runs out. -/
def sliceBatchesF (batchSize : Nat) : Nat → List α → List (List α)
  | _, [] => []
  | 0, _ :: _ => []
  | fuel + 1, x :: xs =>
    (x :: xs.take (batchSize - 1)) ::
      sliceBatchesF batchSize fuel (xs.drop (batchSize - 1))

/-- Batches of `batchSize` consecutive elements. -/
def sliceBatches (batchSize : Nat) (l : List α) : List (List α) :=
  sliceBatchesF batchSize l.length l

/-- The inner loop of `generateEmbeddingsBatch` over 100-text batches:
each batch is one `create` call; the first failure aborts the whole call
(rethrown).  Returns the result and the next global call number. -/
def genBatchGo (oracle : EmbOracle) :
    Nat → List (List (List Char)) → Except EmbErr (List (List ℚ)) × Nat
  | call, [] => (.ok [], call)
  | call, b :: bs =>
    match oracle call b with
    | .error e => (.error e, call + 1)
    | .ok vs =>
      match genBatchGo oracle (call + 1) bs with
      | (.ok rest, c) => (.ok (vs ++ rest), c)
      | (.error e, c) => (.error e, c)

/-- `generateEmbeddingsBatch` of the OpenAI service (batch size 100). -/
def genBatch (oracle : EmbOracle) (call : Nat) (texts : List (List Char)) :
    Except EmbErr (List (List ℚ)) × Nat :=
  genBatchGo oracle call (sliceBatches 100 texts)

/-- The sub-batch fallback loop of the ingest route: each sub-batch is one
`generateEmbeddingsBatch` call; a failing sub-batch is replaced by zero
vectors of length `dims` plus a warning naming the batch (`k` counts the
sub-batches already processed, so the warning number is `k + 1`). -/
def subBatchGo (oracle : EmbOracle) (dims : Nat) :
    Nat → Nat → List (List (List Char)) → List (List ℚ) × List String × Nat
  | call, _, [] => ([], [], call)
  | call, k, b :: bs =>
    match genBatch oracle call b with
    | (.ok vs, c) =>
      let (rest, ws, c') := subBatchGo oracle dims c (k + 1) bs
      (vs ++ rest, ws, c')
    | (.error _, c) =>
      let (rest, ws, c') := subBatchGo oracle dims c (k + 1) bs
      (List.replicate b.length (List.replicate dims (0 : ℚ)) ++ rest,
       ("Batch " ++ toString (k + 1) ++ " failed - using zero vectors") :: ws,
       c')

/-- The `while (retryCount < maxRetries)` embedding loop of the ingest
route: try the full batch; on failure increment `retryCount`, and once it
reaches 3 (`maxRetries`) degrade to sub-batches of size
`max(1, ⌊n/3⌋)`.  The upward-counting `retryCount` of the source is
embedded structurally by the remaining attempt count
`attemptsLeft = 3 - retryCount`; the route enters the loop with
`retryCount = 0`, i.e. `attemptsLeft = 3`, so the `attemptsLeft = 0` case
(loop body never entered) is unreachable from `embedStage`.  Returns the
embeddings, the embedding warnings, and the number of provider calls
made. -/
def embedRetryGo (oracle : EmbOracle) (dims : Nat)
    (texts : List (List Char)) : Nat → Nat → List (List ℚ) × List String × Nat
  | 0, call => ([], [], call)
  | attemptsLeft + 1, call =>
    match genBatch oracle call texts with
    | (.ok vs, c) => (vs, [], c)
    | (.error _, c) =>
      if attemptsLeft = 0 then
        subBatchGo oracle dims c 0
          (sliceBatches (max 1 (texts.length / 3)) texts)
      else embedRetryGo oracle dims texts attemptsLeft c

/-- The whole embedding stage of the ingest route (`retryCount = 0`,
i.e. three attempts left, first provider call number 0). -/
def embedStage (oracle : EmbOracle) (dims : Nat) (texts : List (List Char)) :
    List (List ℚ) × List String × Nat :=
  embedRetryGo oracle dims texts 3 0

/-! ## Pinecone service: duplicate check and batched upsert -/

/-- The metadata of a query match used by `checkDuplicateFile`
(`metadata.filename`, `metadata.uploaded_at`). -/
structure MatchMeta where
  filename : String
  uploaded_at : String
  deriving Repr, DecidableEq

/-- Chunk/vector counts returned by `getFileStats` (that helper catches
its own errors and returns zero counts, so it is modelled by its value). -/
structure FileStats where
  chunks_count : Nat
  vectors_count : Nat
  deriving Repr, DecidableEq

/-- The duplicate descriptor returned by `checkDuplicateFile`. -/
structure DupInfo where
  filename : String
  uploaded_at : String
  namespace_ : String
  chunks_count : Nat
  vectors_count : Nat
  deriving Repr, DecidableEq

/-- `checkDuplicateFile` of the Pinecone service: query by `file_hash`
filter; on any error (of the query or of the subsequent `getIndexStats`)
return `null` — "assume no duplicate (allow upload)".  `queryRes` is the
store query outcome, `statsRes` the `getIndexStats` outcome, `fileStats`
the `getFileStats` value, `nowIso` the current ISO timestamp used when the
match has no `uploaded_at`. -/
def checkDuplicateFile (queryRes : Except String (List MatchMeta))
    (statsRes : Except String Unit) (fileStats : FileStats)
    (ns : String) (nowIso : String) : Option DupInfo :=
  match queryRes with
  | .error _ => none
  | .ok [] => none
  | .ok (m :: _) =>
    match statsRes with
    | .error _ => none
    | .ok _ =>
      some { filename := m.filename,
             uploaded_at := if m.uploaded_at = "" then nowIso else m.uploaded_at,
             namespace_ := ns,
             chunks_count := fileStats.chunks_count,
             vectors_count := fileStats.vectors_count }

/-- One vector record built by the ingest route (`values` is
`embeddings[index]`, absent when the embeddings list is shorter). -/
structure VectorRecord where
  id : String
  values : Option (List ℚ)
  source : String
  topic : String
  subtopic : Option String
  version : Option String
  chunk_id : String
  page : Option Nat
  filename : String
  file_hash : String
  uploaded_at : String
  text : List Char
  chunk_text : List Char
  preview : List Char
  deriving Repr, DecidableEq

/-- The batched upsert loop of `upsertVectors`: the store is an oracle per
batch call; the first failing batch call aborts (rethrown).  Returns
`ok (number of batches)` or the error, plus the number of store calls. -/
def upsertGo (store : Nat → Except String Unit) :
    Nat → Nat → Except String Nat × Nat
  | k, 0 => (.ok k, k)
  | k, n + 1 =>
    match store k with
    | .error e => (.error e, k + 1)
    | .ok _ => upsertGo store (k + 1) n

/-- `upsertVectors` of the Pinecone service on `n` vectors: batches of
100, one store call per batch; returns
`{ totalVectors := n, batches }` on success. -/
def upsertVectors (store : Nat → Except String Unit) (n : Nat) :
    Except String (Nat × Nat) × Nat :=
  let numBatches := (sliceBatches 100 (List.range n)).length
  match upsertGo store 0 numBatches with
  | (.ok b, calls) => (.ok (n, b), calls)
  | (.error e, calls) => (.error e, calls)

/-! ## The ingestion orchestrator (`POST /api/ingest-from-blob`) -/

/-- The request fields and collaborator outcomes of one ingestion call.
External effects (blob fetch, parser libraries, embedding provider, vector
store, uuid, clock, content hash) enter as oracles/values. -/
structure IngestInput where
  blobUrl : String
  filename : String
  indexName : String
  topic : String
  source : String
  subtopic : Option String
  version : Option String
  chunkSize : Nat
  overlap : Nat
  useHeadings : Bool
  dimensions : Nat
  forceUpload : Bool
  namespace_ : String
  blobFetch : Except String Unit
  fileHash : String
  nowIso : String
  uuid : String
  dupQueryRes : Except String (List MatchMeta)
  dupStatsRes : Except String Unit
  dupFileStats : FileStats
  pdfRes : Except String Parsed
  docxRes : Except String Parsed
  csvRes : Except String Parsed
  fallbackRes : Except String Parsed
  embOracle : EmbOracle
  store : Nat → Except String Unit

/-- The response of one ingestion call. -/
inductive IngestOutcome where
  | badRequest
  | serverError (msg : String)
  | duplicate (info : DupInfo)
  | success (chunksCreated vectorsUpserted batches : Nat) (warnings : List String)

/-- What one ingestion call did: its response plus which pipeline stages
ran and how many collaborator calls were made. -/
structure IngestTrace where
  outcome : IngestOutcome
  ranExtract : Bool
  ranEmbed : Bool
  ranUpsert : Bool
  embedCalls : Nat
  upsertCalls : Nat

/-- Build the vector records of the ingest route (`chunks.map((chunk,
index) => ...)`); `page` falls back from the (falsy-checked) chunk page to
the parsed page count. -/
def buildVectors (input : IngestInput) (parsed : Parsed)
    (chunks : List Chunk) (embeddings : List (List ℚ)) : List VectorRecord :=
  (chunks.enum).map (fun (index, chunk) =>
    { id := input.uuid ++ "-" ++ toString index,
      values := embeddings.get? index,
      source := input.source,
      topic := input.topic,
      subtopic := match input.subtopic with
        | some s => if s = "" then none else some s
        | none => none,
      version := match input.version with
        | some v => if v = "" then none else some v
        | none => none,
      chunk_id := chunk.id,
      page := match chunk.page with
        | some p => if p = 0 then
            (if parsed.pageCount = 0 then none else some parsed.pageCount)
          else some p
        | none => if parsed.pageCount = 0 then none else some parsed.pageCount,
      filename := input.filename,
      file_hash := input.fileHash,
      uploaded_at := input.nowIso,
      text := chunk.text,
      chunk_text := chunk.text,
      preview := chunk.text.take 200 })

/-- One call of `POST /api/ingest-from-blob`: field validation, blob
download, hash, duplicate short-circuit, parse phase, chunking, embedding
ladder, vector build, batched upsert.  `none` models a non-terminating
chunker configuration; every other path returns a trace. -/
def ingestPipeline (input : IngestInput) : Option IngestTrace :=
  if input.blobUrl = "" ∨ input.filename = "" ∨ input.indexName = "" ∨
      input.topic = "" ∨ input.source = "" then
    some { outcome := .badRequest, ranExtract := false, ranEmbed := false,
           ranUpsert := false, embedCalls := 0, upsertCalls := 0 }
  else
    match input.blobFetch with
    | .error msg =>
      some { outcome := .serverError ("Failed to download file from blob: " ++ msg),
             ranExtract := false, ranEmbed := false, ranUpsert := false,
             embedCalls := 0, upsertCalls := 0 }
    | .ok _ =>
      let dup : Option DupInfo :=
        if input.forceUpload then none
        else checkDuplicateFile input.dupQueryRes input.dupStatsRes
          input.dupFileStats input.namespace_ input.nowIso
      match dup with
      | some d =>
        some { outcome := .duplicate
                 { d with namespace_ := if d.namespace_ = "" then "" else d.namespace_ },
               ranExtract := false, ranEmbed := false, ranUpsert := false,
               embedCalls := 0, upsertCalls := 0 }
      | none =>
        let parseRes := parseFile input.pdfRes input.docxRes input.csvRes input.filename
        let (parsed, parseWarnings) := routeParsePhase parseRes input.fallbackRes input.filename
        match chunkText parsed.text
            ⟨input.chunkSize, input.overlap, input.useHeadings⟩ none with
        | none => none
        | some chunks =>
          let texts := chunks.map (·.text)
          let (embeddings, embedWarnings, embCalls) :=
            embedStage input.embOracle input.dimensions texts
          let vectors := buildVectors input parsed chunks embeddings
          match upsertVectors input.store vectors.length with
          | (.ok (total, batches), upCalls) =>
            some { outcome := .success chunks.length total batches
                     (parseWarnings ++ embedWarnings),
                   ranExtract := true, ranEmbed := true, ranUpsert := true,
                   embedCalls := embCalls, upsertCalls := upCalls }
          | (.error msg, upCalls) =>
            some { outcome := .serverError msg,
                   ranExtract := true, ranEmbed := true, ranUpsert := true,
                   embedCalls := embCalls, upsertCalls := upCalls }

/-! ## Chunker lemmas -/

theorem jsTrim_eq_rdrop (l : List Char) :
    jsTrim l = List.rdropWhile isWs (l.dropWhile isWs) := rfl

theorem jsTrim_idem (l : List Char) : jsTrim (jsTrim l) = jsTrim l := by
  rw [jsTrim_eq_rdrop, jsTrim_eq_rdrop]
  have key : (List.rdropWhile isWs (l.dropWhile isWs)).dropWhile isWs
      = List.rdropWhile isWs (l.dropWhile isWs) := by
    rw [List.dropWhile_eq_self_iff]
    intro hl
    have hpre := List.rdropWhile_prefix isWs (l.dropWhile isWs)
    have h0 : 0 < (l.dropWhile isWs).length := Nat.lt_of_lt_of_le hl hpre.length_le
    have hnot := List.dropWhile_get_zero_not isWs l h0
    have hget : (l.dropWhile isWs).get ⟨0, h0⟩
        = (List.rdropWhile isWs (l.dropWhile isWs)).get ⟨0, hl⟩ := by
      simp only [List.get_eq_getElem]
      exact (List.IsPrefix.getElem hpre hl).symm
    rwa [hget] at hnot
  rw [key, List.rdropWhile_idempotent]

theorem lt_actualEndSp (text : List Char) (cs s e : Nat) (w : List Char)
    (h : s < e) : s < actualEnd.actualEndSp text cs s e w := by
  unfold actualEnd.actualEndSp
  rcases hp : lastIndexOfPat w [' '] with _ | p <;> simp only [hp]
  · exact h
  · split <;> omega

theorem lt_actualEndNl (text : List Char) (cs s e : Nat) (w : List Char)
    (h : s < e) : s < actualEnd.actualEndNl text cs s e w := by
  unfold actualEnd.actualEndNl
  rcases hp : lastIndexOfPat w ['\n'] with _ | p <;> simp only [hp]
  · exact lt_actualEndSp text cs s e w h
  · split
    · omega
    · exact lt_actualEndSp text cs s e w h

theorem lt_actualEndRest (text : List Char) (cs s e : Nat) (w : List Char)
    (h : s < e) : s < actualEnd.actualEndRest text cs s e w := by
  unfold actualEnd.actualEndRest
  rcases hv : lastSentenceEnd w with _ | v <;> simp only [hv]
  · exact lt_actualEndNl text cs s e w h
  · split
    · omega
    · exact lt_actualEndNl text cs s e w h

theorem lt_actualEnd (text : List Char) (cs s e : Nat) (h : s < e) :
    s < actualEnd text cs s e := by
  unfold actualEnd
  split
  · rcases hp : lastIndexOfPat ((text.drop s).take (e - s)) ['\n', '\n']
      with _ | p <;> simp only [hp]
    · exact lt_actualEndRest text cs s e _ h
    · split
      · omega
      · exact lt_actualEndRest text cs s e _ h
  · exact h

theorem chunkSimpleGo_isSome (text : List Char) (cs ov : Nat)
    (page : Option Nat) (hcs : 1 ≤ cs) :
    ∀ fuel s id, text.length ≤ fuel + s →
      (chunkSimpleGo text cs ov page fuel s id).isSome := by
  intro fuel
  induction fuel with
  | zero =>
    intro s id hle
    rw [chunkSimpleGo]
    have : ¬ s < text.length := by omega
    simp [this]
  | succ fuel ih =>
    intro s id hle
    rw [chunkSimpleGo]
    by_cases hs : s < text.length
    · simp only [hs, if_true]
      have he : s < min (s + cs) text.length := by omega
      have ha := lt_actualEnd text cs s (min (s + cs) text.length) he
      set aE := actualEnd text cs s (min (s + cs) text.length) with haE
      split
      · split
        · obtain ⟨res, hres⟩ :=
            Option.isSome_iff_exists.mp (ih aE (id + 1) (by omega))
          rw [hres]
          rfl
        · obtain ⟨res, hres⟩ :=
            Option.isSome_iff_exists.mp (ih (aE - ov) (id + 1) (by omega))
          rw [hres]
          rfl
      · exact ih aE id (by omega)
    · simp [hs]

theorem chunkSimpleGo_monotone (text : List Char) (cs ov : Nat)
    (page : Option Nat) (hcs : 1 ≤ cs) :
    ∀ fuel s id res, chunkSimpleGo text cs ov page fuel s id = some res →
      (∀ c ∈ res, s ≤ c.startIndex) ∧
      res.Pairwise (fun a b => a.startIndex < b.startIndex) := by
  intro fuel
  induction fuel with
  | zero =>
    intro s id res hres
    rw [chunkSimpleGo] at hres
    by_cases hs : s < text.length <;> simp [hs] at hres
    subst hres
    simp
  | succ fuel ih =>
    intro s id res hres
    rw [chunkSimpleGo] at hres
    by_cases hs : s < text.length
    · simp only [hs, if_true] at hres
      have he : s < min (s + cs) text.length := by omega
      have ha := lt_actualEnd text cs s (min (s + cs) text.length) he
      split at hres
      · rw [Option.map_eq_some'] at hres
        obtain ⟨res', hres', hmap⟩ := hres
        subst hmap
        obtain ⟨hlb, hpw⟩ := ih _ _ _ hres'
        have hs' : s < (if actualEnd text cs s (min (s + cs) text.length) - ov ≤ s
            then actualEnd text cs s (min (s + cs) text.length)
            else actualEnd text cs s (min (s + cs) text.length) - ov) := by
          split <;> omega
        constructor
        · intro c hc
          rcases List.mem_cons.mp hc with hceq | hcm
          · subst hceq; simp
          · exact le_of_lt (Nat.lt_of_lt_of_le hs' (hlb c hcm))
        · refine List.Pairwise.cons ?_ hpw
          intro b hb
          simpa using Nat.lt_of_lt_of_le hs' (hlb b hb)
      · obtain ⟨hlb, hpw⟩ := ih _ _ _ hres
        exact ⟨fun c hc => le_of_lt (Nat.lt_of_lt_of_le ha (hlb c hc)), hpw⟩
    · simp [hs] at hres
      subst hres
      simp

theorem chunkSimpleGo_text (text : List Char) (cs ov : Nat)
    (page : Option Nat) :
    ∀ fuel s id res, chunkSimpleGo text cs ov page fuel s id = some res →
      ∀ c ∈ res, jsTrim c.text = c.text ∧ 50 < c.text.length := by
  intro fuel
  induction fuel with
  | zero =>
    intro s id res hres
    rw [chunkSimpleGo] at hres
    by_cases hs : s < text.length <;> simp [hs] at hres
    subst hres
    simp
  | succ fuel ih =>
    intro s id res hres
    rw [chunkSimpleGo] at hres
    by_cases hs : s < text.length
    · simp only [hs, if_true] at hres
      split at hres
      · rw [Option.map_eq_some'] at hres
        obtain ⟨res', hres', hmap⟩ := hres
        subst hmap
        intro c hc
        rcases List.mem_cons.mp hc with hceq | hcm
        · subst hceq
          refine ⟨jsTrim_idem _, ?_⟩
          simpa using ‹_›
        · exact ih _ _ _ hres' c hcm
      · exact ih _ _ _ hres
    · simp [hs] at hres
      subst hres
      simp

theorem headingOffsetsGo_lb :
    ∀ (lines : List (List Char)) (cur : Nat),
      ∀ x ∈ headingOffsetsGo lines cur, cur ≤ x := by
  intro lines
  induction lines with
  | nil => intro cur x hx; simp [headingOffsetsGo] at hx
  | cons l rest ih =>
    intro cur x hx
    rw [headingOffsetsGo] at hx
    rcases List.mem_append.mp hx with hx | hx
    · split at hx <;> simp at hx
      omega
    · have := ih (cur + l.length + 1) x hx
      omega

theorem sectionsGo_start_lb (text : List Char) (cs ov : Nat)
    (page : Option Nat) (h0 : Nat) :
    ∀ (offs : List Nat) (id : Nat) (res : List Chunk) (id' : Nat),
      (∀ x ∈ offs, h0 ≤ x) →
      sectionsGo text cs ov page offs id = some (res, id') →
      ∀ c ∈ res, h0 ≤ c.startIndex := by
  intro offs
  induction offs with
  | nil =>
    intro id res id' _ hres c hc
    simp only [sectionsGo] at hres
    simp at hres
    obtain ⟨h1, _⟩ := hres
    subst h1
    simp at hc
  | cons h rest ih =>
    intro id res id' hbound hres c hc
    simp only [sectionsGo] at hres
    have hh0 : h0 ≤ h := hbound h (by simp)
    have hboundRest : ∀ x ∈ rest, h0 ≤ x := fun x hx => hbound x (by simp [hx])
    split at hres
    · rcases hsec : chunkSimple
          ((text.drop h).take (sectionEnd text rest - h)) cs ov page
        with _ | sectionChunks
      · rw [hsec] at hres
        simp at hres
      · rw [hsec] at hres
        dsimp only at hres
        rcases hrec : sectionsGo text cs ov page rest (id + sectionChunks.length)
          with _ | ⟨cs2, id2⟩
        · rw [hrec] at hres
          simp at hres
        · rw [hrec] at hres
          simp only [Option.some.injEq, Prod.mk.injEq] at hres
          obtain ⟨hres1, _⟩ := hres
          subst hres1
          rcases List.mem_append.mp hc with hcm | hcm
          · simp only [List.mem_map] at hcm
            obtain ⟨⟨j, c0⟩, _, hceq⟩ := hcm
            rw [← hceq]
            simp
            omega
          · exact ih _ _ _ hboundRest hrec c hcm
    · rcases hrec : sectionsGo text cs ov page rest (id + 1) with _ | ⟨cs2, id2⟩
      · rw [hrec] at hres
        simp at hres
      · rw [hrec] at hres
        simp only [Option.some.injEq, Prod.mk.injEq] at hres
        obtain ⟨hres1, _⟩ := hres
        subst hres1
        rcases List.mem_cons.mp hc with hceq | hcm
        · subst hceq
          simpa using hh0
        · exact ih _ _ _ hboundRest hrec c hcm

theorem sectionsGo_text (text : List Char) (cs ov : Nat) (page : Option Nat) :
    ∀ (offs : List Nat) (id : Nat) (res : List Chunk) (id' : Nat),
      sectionsGo text cs ov page offs id = some (res, id') →
      ∀ c ∈ res, jsTrim c.text = c.text := by
  intro offs
  induction offs with
  | nil =>
    intro id res id' hres c hc
    simp only [sectionsGo, Option.some.injEq, Prod.mk.injEq] at hres
    obtain ⟨h1, _⟩ := hres
    subst h1
    simp at hc
  | cons h rest ih =>
    intro id res id' hres c hc
    simp only [sectionsGo] at hres
    split at hres
    · rcases hsec : chunkSimple
          ((text.drop h).take (sectionEnd text rest - h)) cs ov page
        with _ | sectionChunks
      · rw [hsec] at hres
        simp at hres
      · rw [hsec] at hres
        dsimp only at hres
        rcases hrec : sectionsGo text cs ov page rest (id + sectionChunks.length)
          with _ | ⟨cs2, id2⟩
        · rw [hrec] at hres
          simp at hres
        · rw [hrec] at hres
          simp only [Option.some.injEq, Prod.mk.injEq] at hres
          obtain ⟨hres1, _⟩ := hres
          subst hres1
          rcases List.mem_append.mp hc with hcm | hcm
          · simp only [List.mem_map] at hcm
            obtain ⟨⟨j, c0⟩, hmem, hceq⟩ := hcm
            rw [← hceq]
            have hc0 : c0 ∈ sectionChunks := by
              rw [List.mk_mem_enum_iff_getElem?] at hmem
              exact List.getElem?_mem hmem
            simpa using (chunkSimpleGo_text _ _ _ _ _ _ _ _ hsec c0 hc0).1
          · exact ih _ _ _ hrec c hcm
    · rcases hrec : sectionsGo text cs ov page rest (id + 1) with _ | ⟨cs2, id2⟩
      · rw [hrec] at hres
        simp at hres
      · rw [hrec] at hres
        simp only [Option.some.injEq, Prod.mk.injEq] at hres
        obtain ⟨hres1, _⟩ := hres
        subst hres1
        rcases List.mem_cons.mp hc with hceq | hcm
        · subst hceq
          simpa using jsTrim_idem _
        · exact ih _ _ _ hrec c hcm

/-- Every chunk of `chunkText` has trimmed text, and in simple mode its
trimmed length exceeds 50. -/
theorem chunkText_invariant (text : List Char) (cfg : ChunkingConfig)
    (page : Option Nat) (res : List Chunk)
    (hres : chunkText text cfg page = some res) :
    ∀ c ∈ res, jsTrim c.text = c.text ∧
      (cfg.useHeadings = false → 50 < c.text.length) := by
  unfold chunkText at hres
  split at hres
  · rename_i huse
    intro c hc
    refine ⟨?_, fun hfalse => by rw [huse] at hfalse; cases hfalse⟩
    unfold chunkWithHeadings at hres
    split at hres
    · exact (chunkSimpleGo_text _ _ _ _ _ _ _ _ hres c hc).1
    · rw [Option.map_eq_some'] at hres
      obtain ⟨⟨res0, id0⟩, hres0, hmap⟩ := hres
      subst hmap
      exact sectionsGo_text _ _ _ _ _ _ _ _ hres0 c hc
  · intro c hc
    have := chunkSimpleGo_text _ _ _ _ _ _ _ _ hres c hc
    exact ⟨this.1, fun _ => this.2⟩

theorem headingOffsetsGo_sorted :
    ∀ (lines : List (List Char)) (cur : Nat),
      (headingOffsetsGo lines cur).Pairwise (· ≤ ·) := by
  intro lines
  induction lines with
  | nil => intro cur; simp [headingOffsetsGo]
  | cons l rest ih =>
    intro cur
    rw [headingOffsetsGo]
    split
    · refine List.Pairwise.cons ?_ (ih _)
      intro x hx
      have := headingOffsetsGo_lb rest (cur + l.length + 1) x hx
      omega
    · simpa using ih _

/-! ## Claim C4: chunker termination and monotone advance -/

/-- C4 (counterexample): the claim quantifies over *every* chunk
configuration, but with `chunkSize = 0` the cursor never advances: on the
one-character text `"a"` the loop is still running after `len(text) = 1`
iterations, and indeed after 100 iterations. -/
theorem C4_counterexample :
    chunkSimple ['a'] 0 5 none = none ∧
    chunkSimpleGo ['a'] 0 5 none 10 0 0 = none := by
  constructor <;> set_option maxHeartbeats 1000000 in decide

/-- C4 (amended): for every input text, every `chunkSize ≥ 1` and every
overlap (including `overlap ≥ chunkSize`), the `chunkSimple` loop
terminates within `len(text)` iterations, and the `startIndex` values of
the emitted chunks are strictly increasing. -/
theorem C4_theorem (text : List Char) (cs ov : Nat) (page : Option Nat)
    (hcs : 1 ≤ cs) :
    (chunkSimple text cs ov page).isSome ∧
    ∀ res, chunkSimple text cs ov page = some res →
      res.Pairwise (fun a b => a.startIndex < b.startIndex) :=
  ⟨chunkSimpleGo_isSome text cs ov page hcs text.length 0 0 (by omega),
   fun res hres =>
     (chunkSimpleGo_monotone text cs ov page hcs text.length 0 0 res hres).2⟩

/-- Demonstration text for the chunker witnesses. -/
def wText : List Char :=
  ("This is a sentence that is long enough to form one chunk. " ++
   "And here is more text to make the example interesting enough.").toList

/-- C4 witness at a concrete input. -/
theorem C4_witness :
    1 ≤ 30 ∧
    ((chunkSimple wText 30 40 none).isSome ∧
     ∀ res, chunkSimple wText 30 40 none = some res →
       res.Pairwise (fun a b => a.startIndex < b.startIndex)) :=
  ⟨by decide, C4_theorem wText 30 40 none (by decide)⟩

/-! ## Claim C3: chunk text trimmed, non-empty, longer than 50 -/

/-- C3 (counterexample): in heading-guided mode a section at or under
`chunkSize` becomes a single chunk with no length filter; on
`"Hi\nThere"` the single emitted chunk has text of length 8, not
greater than 50. -/
theorem C3_counterexample :
    chunkText ("Hi\nThere".toList) ⟨2000, 300, true⟩ none =
      some [{ id := "chunk-0", text := "Hi\nThere".toList,
              startIndex := 0, endIndex := 8, page := none }] ∧
    ("Hi\nThere".toList).length ≤ 50 := by
  constructor <;> decide

/-- C3 (amended): every chunk returned by `chunkText` has trimmed text
(`trim` is a no-op on it), and in simple mode (`useHeadings = false`) the
text is additionally strictly longer than 50 characters (hence non-empty);
in heading-guided mode a whole-section chunk is only trimmed and may be
short or empty. -/
theorem C3_theorem (text : List Char) (cfg : ChunkingConfig)
    (page : Option Nat) (res : List Chunk)
    (hres : chunkText text cfg page = some res) :
    ∀ c ∈ res, jsTrim c.text = c.text ∧
      (cfg.useHeadings = false → 50 < c.text.length) :=
  chunkText_invariant text cfg page res hres

/-- C3 witness at a concrete input. -/
theorem C3_witness :
    chunkText wText ⟨2000, 300, false⟩ none =
      some [{ id := "chunk-0", text := wText,
              startIndex := 0, endIndex := 119, page := none }] ∧
    ∀ c ∈ [({ id := "chunk-0", text := wText,
              startIndex := 0, endIndex := 119, page := none } : Chunk)],
      jsTrim c.text = c.text ∧
      ((⟨2000, 300, false⟩ : ChunkingConfig).useHeadings = false →
        50 < c.text.length) :=
  ⟨by decide, C3_theorem wText ⟨2000, 300, false⟩ none _ (by decide)⟩

/-! ## Claim C10: heading mode excludes the prefix before the first
heading -/

/-- C10: in heading-guided mode with at least one detected heading, at a
nonzero first offset `h`, every emitted chunk starts at or after `h`: no
chunk covers any character before the first detected heading line. -/
theorem C10_theorem (text : List Char) (cs ov : Nat) (page : Option Nat)
    (h : Nat) (hs : List Nat) (res : List Chunk)
    (hho : headingOffsets text = h :: hs) (hpos : 0 < h)
    (hrun : chunkWithHeadings text cs ov page = some res) :
    ∀ c ∈ res, h ≤ c.startIndex := by
  unfold chunkWithHeadings at hrun
  rw [hho] at hrun
  dsimp only at hrun
  rw [Option.map_eq_some'] at hrun
  obtain ⟨⟨res0, id0⟩, hres0, hmap⟩ := hrun
  subst hmap
  refine sectionsGo_start_lb text cs ov page h (h :: hs) 0 res0 id0 ?_ hres0
  intro x hx
  rcases List.mem_cons.mp hx with h1 | h1
  · omega
  · have hsort : (h :: hs).Pairwise (· ≤ ·) := by
      rw [← hho]
      exact headingOffsetsGo_sorted _ _
    exact (List.pairwise_cons.mp hsort).1 x h1

/-- Demonstration text whose first detected heading is at offset 1. -/
def wHeadText : List Char := "\nHEY\nbody text of the demo".toList

/-- C10 witness at a concrete input. -/
theorem C10_witness :
    headingOffsets wHeadText = [1] ∧ 0 < 1 ∧
    chunkWithHeadings wHeadText 2000 300 none =
      some [{ id := "chunk-0", text := "HEY\nbody text of the demo".toList,
              startIndex := 1, endIndex := 26, page := none }] ∧
    ∀ c ∈ [({ id := "chunk-0", text := "HEY\nbody text of the demo".toList,
              startIndex := 1, endIndex := 26, page := none } : Chunk)],
      1 ≤ c.startIndex :=
  ⟨by decide, by decide, by decide,
   C10_theorem wHeadText 2000 300 none 1 [] _ (by decide) (by decide) (by decide)⟩

/-! ## Claim C8: break-point selection rules -/

theorem actualEndSp_space (text w : List Char) (cs s e p : Nat)
    (hp : lastIndexOfPat w [' '] = some p) (hgt : 10 * p > 7 * cs) :
    actualEnd.actualEndSp text cs s e w = s + p + 1 := by
  unfold actualEnd.actualEndSp
  rw [hp]
  simp [hgt]

theorem actualEndSp_fail (text w : List Char) (cs s e : Nat)
    (hfail : ∀ p, lastIndexOfPat w [' '] = some p → 10 * p ≤ 7 * cs) :
    actualEnd.actualEndSp text cs s e w = e := by
  unfold actualEnd.actualEndSp
  rcases hp : lastIndexOfPat w [' '] with _ | p
  · rfl
  · simp [Nat.not_lt.mpr (hfail p hp)]

theorem actualEndNl_newline (text w : List Char) (cs s e p : Nat)
    (hp : lastIndexOfPat w ['\n'] = some p) (hgt : 2 * p > cs) :
    actualEnd.actualEndNl text cs s e w = s + p + 1 := by
  unfold actualEnd.actualEndNl
  rw [hp]
  simp [hgt]

theorem actualEndNl_fail (text w : List Char) (cs s e : Nat)
    (hfail : ∀ p, lastIndexOfPat w ['\n'] = some p → 2 * p ≤ cs) :
    actualEnd.actualEndNl text cs s e w = actualEnd.actualEndSp text cs s e w := by
  unfold actualEnd.actualEndNl
  rcases hp : lastIndexOfPat w ['\n'] with _ | p
  · rfl
  · simp [Nat.not_lt.mpr (hfail p hp)]

theorem actualEndRest_sentence (text w : List Char) (cs s e v : Nat)
    (hv : lastSentenceEnd w = some v) (hgt : 2 * v > cs) :
    actualEnd.actualEndRest text cs s e w = s + v := by
  unfold actualEnd.actualEndRest
  rw [hv]
  simp [hgt]

theorem actualEndRest_fail (text w : List Char) (cs s e : Nat)
    (hfail : ∀ v, lastSentenceEnd w = some v → 2 * v ≤ cs) :
    actualEnd.actualEndRest text cs s e w = actualEnd.actualEndNl text cs s e w := by
  unfold actualEnd.actualEndRest
  rcases hv : lastSentenceEnd w with _ | v
  · rfl
  · simp [Nat.not_lt.mpr (hfail v hv)]

theorem actualEnd_paragraph (text : List Char) (cs s e p : Nat)
    (hlt : e < text.length)
    (hp : lastIndexOfPat ((text.drop s).take (e - s)) ['\n', '\n'] = some p)
    (hgt : 5 * p > 3 * cs) :
    actualEnd text cs s e = s + p + 2 := by
  unfold actualEnd
  rw [if_pos hlt]
  dsimp only
  rw [hp]
  simp [hgt]

theorem actualEnd_paragraph_fail (text : List Char) (cs s e : Nat)
    (hlt : e < text.length)
    (hfail : ∀ p, lastIndexOfPat ((text.drop s).take (e - s)) ['\n', '\n'] =
      some p → 5 * p ≤ 3 * cs) :
    actualEnd text cs s e =
      actualEnd.actualEndRest text cs s e ((text.drop s).take (e - s)) := by
  unfold actualEnd
  rw [if_pos hlt]
  dsimp only
  rcases hp : lastIndexOfPat ((text.drop s).take (e - s)) ['\n', '\n'] with _ | p
  · rfl
  · simp [Nat.not_lt.mpr (hfail p hp)]

/-- C8: when the candidate end `e = min(s + chunkSize, len)` is strictly
before the end of the text, the break point is chosen by the first
applicable rule, in priority order over the window `w`:
(a) last `"\n\n"` at `p` with `p > 0.6·chunkSize` gives `s + p + 2`;
(b) otherwise the last sentence end (`.`/`!`/`?` followed by whitespace)
with end position `v > 0.5·chunkSize` gives `s + v`;
(c) otherwise the last `'\n'` at `p > 0.5·chunkSize` gives `s + p + 1`;
(d) otherwise the last `' '` at `p > 0.7·chunkSize` gives `s + p + 1`;
(e) otherwise the raw candidate end `e` (hard cut). -/
theorem C8_theorem (text w : List Char) (cs s e : Nat)
    (hee : e = min (s + cs) text.length) (hlt : e < text.length)
    (hw : w = (text.drop s).take (e - s)) :
    (∀ p, lastIndexOfPat w ['\n', '\n'] = some p → 5 * p > 3 * cs →
      actualEnd text cs s e = s + p + 2) ∧
    ((∀ p, lastIndexOfPat w ['\n', '\n'] = some p → 5 * p ≤ 3 * cs) →
      ∀ v, lastSentenceEnd w = some v → 2 * v > cs →
        actualEnd text cs s e = s + v) ∧
    ((∀ p, lastIndexOfPat w ['\n', '\n'] = some p → 5 * p ≤ 3 * cs) →
      (∀ v, lastSentenceEnd w = some v → 2 * v ≤ cs) →
      ∀ p, lastIndexOfPat w ['\n'] = some p → 2 * p > cs →
        actualEnd text cs s e = s + p + 1) ∧
    ((∀ p, lastIndexOfPat w ['\n', '\n'] = some p → 5 * p ≤ 3 * cs) →
      (∀ v, lastSentenceEnd w = some v → 2 * v ≤ cs) →
      (∀ p, lastIndexOfPat w ['\n'] = some p → 2 * p ≤ cs) →
      ∀ p, lastIndexOfPat w [' '] = some p → 10 * p > 7 * cs →
        actualEnd text cs s e = s + p + 1) ∧
    ((∀ p, lastIndexOfPat w ['\n', '\n'] = some p → 5 * p ≤ 3 * cs) →
      (∀ v, lastSentenceEnd w = some v → 2 * v ≤ cs) →
      (∀ p, lastIndexOfPat w ['\n'] = some p → 2 * p ≤ cs) →
      (∀ p, lastIndexOfPat w [' '] = some p → 10 * p ≤ 7 * cs) →
      actualEnd text cs s e = e) := by
  subst hw
  refine ⟨?_, ?_, ?_, ?_, ?_⟩
  · intro p hp hgt
    exact actualEnd_paragraph text cs s e p hlt hp hgt
  · intro hfa v hv hgt
    rw [actualEnd_paragraph_fail text cs s e hlt hfa]
    exact actualEndRest_sentence text _ cs s e v hv hgt
  · intro hfa hfb p hp hgt
    rw [actualEnd_paragraph_fail text cs s e hlt hfa,
        actualEndRest_fail text _ cs s e hfb]
    exact actualEndNl_newline text _ cs s e p hp hgt
  · intro hfa hfb hfc p hp hgt
    rw [actualEnd_paragraph_fail text cs s e hlt hfa,
        actualEndRest_fail text _ cs s e hfb,
        actualEndNl_fail text _ cs s e hfc]
    exact actualEndSp_space text _ cs s e p hp hgt
  · intro hfa hfb hfc hfd
    rw [actualEnd_paragraph_fail text cs s e hlt hfa,
        actualEndRest_fail text _ cs s e hfb,
        actualEndNl_fail text _ cs s e hfc]
    exact actualEndSp_fail text _ cs s e hfd

/-- C8 witness at a concrete input: the paragraph rule fails (no
`"\n\n"`), the sentence rule fires at end position 6, so the break point
is `s + 6`. -/
theorem C8_witness :
    (10 : Nat) = min (0 + 10) ("Abcd. efgh ijkl mnop qrst".toList).length ∧
    10 < ("Abcd. efgh ijkl mnop qrst".toList).length ∧
    "Abcd. efgh".toList =
      (("Abcd. efgh ijkl mnop qrst".toList).drop 0).take (10 - 0) ∧
    lastSentenceEnd ("Abcd. efgh".toList) = some 6 ∧ 2 * 6 > 10 ∧
    actualEnd ("Abcd. efgh ijkl mnop qrst".toList) 10 0 10 = 0 + 6 :=
  ⟨by decide, by decide, by decide, by decide, by decide,
   (C8_theorem ("Abcd. efgh ijkl mnop qrst".toList) ("Abcd. efgh".toList)
       10 0 10 (by decide) (by decide) (by decide)).2.1
     (fun p hp => by
       rw [show lastIndexOfPat ("Abcd. efgh".toList) ['\n', '\n'] = none
         from by decide] at hp
       cases hp)
     6 (by decide) (by decide)⟩

/-! ## Embedding-stage lemmas -/
theorem sliceBatchesF_flatten (bs : Nat) :
    ∀ (fuel : Nat) (l : List α), l.length ≤ fuel →
      (sliceBatchesF bs fuel l).flatten = l := by
  intro fuel
  induction fuel with
  | zero =>
    intro l hl
    cases l with
    | nil => simp [sliceBatchesF]
    | cons x xs => simp at hl
  | succ fuel ih =>
    intro l hl
    cases l with
    | nil => simp [sliceBatchesF]
    | cons x xs =>
      have hd : (xs.drop (bs - 1)).length ≤ fuel := by
        simp only [List.length_drop]
        simp only [List.length_cons] at hl
        omega
      rw [sliceBatchesF, List.flatten_cons, ih (xs.drop (bs - 1)) hd]
      simp

theorem sliceBatches_flatten (bs : Nat) (l : List α) :
    (sliceBatches bs l).flatten = l :=
  sliceBatchesF_flatten bs l.length l le_rfl

theorem genBatchGo_ok (oracle : EmbOracle) (dims : Nat)
    (hok : ∀ k b vs, oracle k b = .ok vs →
      vs.length = b.length ∧ ∀ v ∈ vs, v.length = dims) :
    ∀ (batches : List (List (List Char))) (call : Nat) (vs : List (List ℚ))
      (c : Nat), genBatchGo oracle call batches = (.ok vs, c) →
      vs.length = batches.flatten.length ∧ ∀ v ∈ vs, v.length = dims := by
  intro batches
  induction batches with
  | nil =>
    intro call vs c h
    simp only [genBatchGo, Prod.mk.injEq, Except.ok.injEq] at h
    obtain ⟨h1, _⟩ := h
    subst h1
    simp
  | cons b bs ih =>
    intro call vs c h
    rw [genBatchGo] at h
    rcases ho : oracle call b with e | vs0
    · rw [ho] at h
      simp at h
    · rw [ho] at h
      dsimp only at h
      rcases hrec : genBatchGo oracle (call + 1) bs with ⟨r, c'⟩
      rw [hrec] at h
      cases r with
      | error e => simp at h
      | ok rest =>
        simp only [Prod.mk.injEq, Except.ok.injEq] at h
        obtain ⟨h1, _⟩ := h
        subst h1
        obtain ⟨hl0, hd0⟩ := hok call b vs0 ho
        obtain ⟨hl1, hd1⟩ := ih (call + 1) rest c' hrec
        constructor
        · simp [hl0, hl1]
        · intro v hv
          rcases List.mem_append.mp hv with hv | hv
          · exact hd0 v hv
          · exact hd1 v hv

theorem genBatch_ok (oracle : EmbOracle) (dims : Nat)
    (hok : ∀ k b vs, oracle k b = .ok vs →
      vs.length = b.length ∧ ∀ v ∈ vs, v.length = dims)
    (texts : List (List Char)) (call : Nat) (vs : List (List ℚ)) (c : Nat)
    (h : genBatch oracle call texts = (.ok vs, c)) :
    vs.length = texts.length ∧ ∀ v ∈ vs, v.length = dims := by
  have := genBatchGo_ok oracle dims hok (sliceBatches 100 texts) call vs c h
  rwa [sliceBatches_flatten] at this

theorem subBatchGo_shape (oracle : EmbOracle) (dims : Nat)
    (hok : ∀ k b vs, oracle k b = .ok vs →
      vs.length = b.length ∧ ∀ v ∈ vs, v.length = dims) :
    ∀ (batches : List (List (List Char))) (call k : Nat),
      ((subBatchGo oracle dims call k batches).1).length =
        batches.flatten.length ∧
      ∀ v ∈ (subBatchGo oracle dims call k batches).1, v.length = dims := by
  intro batches
  induction batches with
  | nil => intro call k; simp [subBatchGo]
  | cons b bs ih =>
    intro call k
    rw [subBatchGo]
    rcases hg : genBatch oracle call b with ⟨r, c⟩
    cases r with
    | ok vs =>
      obtain ⟨hl, hd⟩ := genBatch_ok oracle dims hok b call vs c hg
      obtain ⟨ihl, ihd⟩ := ih c (k + 1)
      constructor
      · simp [hl, ihl]
      · intro v hv
        rcases List.mem_append.mp hv with hv | hv
        · exact hd v hv
        · exact ihd v hv
    | error e =>
      obtain ⟨ihl, ihd⟩ := ih c (k + 1)
      constructor
      · simp [ihl]
      · intro v hv
        rcases List.mem_append.mp hv with hv | hv
        · rw [List.eq_of_mem_replicate hv]
          simp
        · exact ihd v hv

theorem embedRetryGo_shape (oracle : EmbOracle) (dims : Nat)
    (texts : List (List Char))
    (hok : ∀ k b vs, oracle k b = .ok vs →
      vs.length = b.length ∧ ∀ v ∈ vs, v.length = dims) :
    ∀ (attemptsLeft call : Nat),
      ((embedRetryGo oracle dims texts (attemptsLeft + 1) call).1).length =
        texts.length ∧
      ∀ v ∈ (embedRetryGo oracle dims texts (attemptsLeft + 1) call).1,
        v.length = dims := by
  intro attemptsLeft
  induction attemptsLeft with
  | zero =>
    intro call
    rw [embedRetryGo]
    rcases hg : genBatch oracle call texts with ⟨r, c⟩
    cases r with
    | ok vs => exact genBatch_ok oracle dims hok texts call vs c hg
    | error e =>
      dsimp only
      simp only [if_pos rfl]
      have := subBatchGo_shape oracle dims hok
        (sliceBatches (max 1 (texts.length / 3)) texts) c 0
      rwa [sliceBatches_flatten] at this
  | succ attemptsLeft ih =>
    intro call
    rw [embedRetryGo]
    rcases hg : genBatch oracle call texts with ⟨r, c⟩
    cases r with
    | ok vs => exact genBatch_ok oracle dims hok texts call vs c hg
    | error e =>
      dsimp only
      simp only [Nat.succ_ne_zero, if_false]
      exact ih c

/-! ## Claim C5: embedding shape invariant -/

/-- C5: for every oracle that, when it succeeds, returns one vector of
length `dims` per input, the embedding stage — full-batch success or
degraded sub-batches with zero-vector substitution alike — returns exactly
one vector per input text, each of length `dims`. -/
theorem C5_theorem (oracle : EmbOracle) (dims : Nat)
    (texts : List (List Char))
    (hok : ∀ k b vs, oracle k b = .ok vs →
      vs.length = b.length ∧ ∀ v ∈ vs, v.length = dims) :
    ((embedStage oracle dims texts).1).length = texts.length ∧
    ∀ v ∈ (embedStage oracle dims texts).1, v.length = dims :=
  embedRetryGo_shape oracle dims texts hok 2 0

/-- A demonstration oracle: the first provider call fails with a transient
error, every later call returns one two-entry vector per input. -/
def wOracle : EmbOracle := fun k b =>
  if k = 0 then .error ⟨"rate limited", false⟩
  else .ok (b.map (fun _ => [(1 : ℚ) / 2, 1 / 4]))

theorem wOracle_ok :
    ∀ k b vs, wOracle k b = .ok vs →
      vs.length = b.length ∧ ∀ v ∈ vs, v.length = 2 := by
  intro k b vs h
  unfold wOracle at h
  split at h
  · cases h
  · simp only [Except.ok.injEq] at h
    subst h
    constructor
    · simp
    · intro v hv
      simp only [List.mem_map] at hv
      obtain ⟨_, _, hveq⟩ := hv
      rw [← hveq]
      rfl

/-- C5 witness at a concrete input. -/
theorem C5_witness :
    (∀ k b vs, wOracle k b = .ok vs →
      vs.length = b.length ∧ ∀ v ∈ vs, v.length = 2) ∧
    ((embedStage wOracle 2 [['h', 'i'], ['y', 'o']]).1).length = 2 ∧
    ∀ v ∈ (embedStage wOracle 2 [['h', 'i'], ['y', 'o']]).1, v.length = 2 :=
  ⟨wOracle_ok, C5_theorem wOracle 2 [['h', 'i'], ['y', 'o']] wOracle_ok⟩

/-! ## Claim C2: no credential fail-fast; the degradation ladder -/

/-- A demonstration oracle whose first call fails for a reason indicating
invalid credentials; later calls succeed. -/
def c2Oracle : EmbOracle := fun k b =>
  if k = 0 then .error ⟨"Incorrect API key provided", true⟩
  else .ok (b.map (fun _ => [(1 : ℚ)]))

/-- C2 (counterexample): the first full-batch attempt fails with a
credential error, yet the embedder does **not** fail fast: it makes a
second provider call (the final call counter is 2) and returns that
attempt's embeddings instead of raising. -/
theorem C2_counterexample :
    c2Oracle 0 [['h', 'i']] = .error ⟨"Incorrect API key provided", true⟩ ∧
    embedStage c2Oracle 1 [['h', 'i']] = ([[1]], [], 2) := by
  constructor
  · rfl
  · rfl

/-- C2 (amended): the route does not classify embedding failures at all:
whenever a full-batch attempt fails — for a credential/configuration
reason or any other — the loop retries with backoff while `retryCount <
3` (`attemptsLeft > 1`) and degrades to sub-batches (size
`max(1, ⌊n/3⌋)`) on the third failure; the ladder itself never raises (it
always returns a vector list plus warnings). -/
theorem C2_theorem (oracle : EmbOracle) (dims : Nat)
    (texts : List (List Char)) (attemptsLeft call : Nat) (e : EmbErr)
    (c : Nat) (hfail : genBatch oracle call texts = (.error e, c)) :
    embedRetryGo oracle dims texts (attemptsLeft + 1) call =
      if attemptsLeft = 0 then
        subBatchGo oracle dims c 0
          (sliceBatches (max 1 (texts.length / 3)) texts)
      else embedRetryGo oracle dims texts attemptsLeft c := by
  rw [embedRetryGo, hfail]

/-- C2 witness: the concrete credential-failure oracle is retried, not
raised. -/
theorem C2_witness :
    genBatch c2Oracle 0 [['h', 'i']] =
      (.error ⟨"Incorrect API key provided", true⟩, 1) ∧
    embedRetryGo c2Oracle 1 [['h', 'i']] 3 0 =
      embedRetryGo c2Oracle 1 [['h', 'i']] 2 1 :=
  ⟨rfl,
   C2_theorem c2Oracle 1 [['h', 'i']] 2 0
     ⟨"Incorrect API key provided", true⟩ 1 rfl⟩

/-! ## Pipeline lemmas -/

theorem append_toList_ne_nil (a b : String) (h : a.toList ≠ []) :
    (a ++ b).toList ≠ [] := by
  rw [show (a ++ b).toList = a.toList ++ b.toList from rfl]
  intro hh
  exact h (List.append_eq_nil.mp hh).1

theorem sectionsGo_isSome (text : List Char) (cs ov : Nat)
    (page : Option Nat) (hcs : 1 ≤ cs) :
    ∀ (offs : List Nat) (id : Nat),
      (sectionsGo text cs ov page offs id).isSome := by
  intro offs
  induction offs with
  | nil => intro id; simp [sectionsGo]
  | cons h rest ih =>
    intro id
    rw [sectionsGo]
    dsimp only
    split
    · have hss : (chunkSimple ((text.drop h).take (sectionEnd text rest - h))
          cs ov page).isSome :=
        chunkSimpleGo_isSome ((text.drop h).take (sectionEnd text rest - h))
          cs ov page hcs
          ((text.drop h).take (sectionEnd text rest - h)).length 0 0 (by omega)
      obtain ⟨sectionChunks, hsec⟩ := Option.isSome_iff_exists.mp hss
      rw [hsec]
      dsimp only
      obtain ⟨⟨cs2, id2⟩, hrec⟩ := Option.isSome_iff_exists.mp
        (ih (id + sectionChunks.length))
      rw [hrec]
      rfl
    · obtain ⟨⟨cs2, id2⟩, hrec⟩ := Option.isSome_iff_exists.mp (ih (id + 1))
      rw [hrec]
      rfl

theorem chunkText_isSome (text : List Char) (cfg : ChunkingConfig)
    (page : Option Nat) (hcs : 1 ≤ cfg.chunkSize) :
    (chunkText text cfg page).isSome := by
  unfold chunkText
  split
  · unfold chunkWithHeadings
    split
    · exact chunkSimpleGo_isSome text cfg.chunkSize cfg.overlap page hcs
        text.length 0 0 (by omega)
    · obtain ⟨⟨res0, id0⟩, hrec⟩ := Option.isSome_iff_exists.mp
        (sectionsGo_isSome text cfg.chunkSize cfg.overlap page hcs _ 0)
      rw [hrec]
      rfl
  · exact chunkSimpleGo_isSome text cfg.chunkSize cfg.overlap page hcs
      text.length 0 0 (by omega)

/-! ## Claim C1: unsupported extensions -/

/-- A concrete ingestion input whose file extension (`txt`) is
unsupported; every collaborator succeeds. -/
def c1Input : IngestInput :=
  { blobUrl := "https://blob/x", filename := "notes.txt", indexName := "idx",
    topic := "t", source := "s", subtopic := none, version := none,
    chunkSize := 2000, overlap := 300, useHeadings := false, dimensions := 1,
    forceUpload := false, namespace_ := "", blobFetch := .ok (),
    fileHash := "h", nowIso := "now", uuid := "u",
    dupQueryRes := .ok [], dupStatsRes := .ok (), dupFileStats := ⟨0, 0⟩,
    pdfRes := .error "x", docxRes := .error "x", csvRes := .error "x",
    fallbackRes := .error "y",
    embOracle := fun _ b => .ok (b.map (fun _ => [(0 : ℚ)])),
    store := fun _ => .ok () }

/-- C1 (counterexample): on the `.txt` file the extractor raises
`Unsupported file type: txt`, but the ingestion call does **not** fail:
the route catches the error, substitutes placeholder text, and completes
with `success` plus warnings — extraction, embedding and upsert all
run. -/
theorem C1_counterexample :
    parseFile c1Input.pdfRes c1Input.docxRes c1Input.csvRes c1Input.filename =
      .error "Unsupported file type: txt" ∧
    ingestPipeline c1Input = some
      { outcome := .success 1 1 1
          ["Initial parse failed: Unsupported file type: txt",
           "Parsing failed - created placeholder entry."],
        ranExtract := true, ranEmbed := true, ranUpsert := true,
        embedCalls := 1, upsertCalls := 1 } := by
  constructor
  · rfl
  · set_option maxHeartbeats 1000000 in rfl

/-- C1 (amended): for every filename whose extension is not
`pdf`/`docx`/`doc`/`csv`, `parseFile` raises
`Unsupported file type: <ext>`, but the route's parse phase swallows the
error: it returns non-empty (placeholder or fallback) text together with a
non-empty warning list, and the pipeline proceeds instead of failing. -/
theorem C1_theorem (filename : String)
    (pdfRes docxRes csvRes fallbackRes : Except String Parsed)
    (hext : fileExtension filename ∉ (["pdf", "docx", "doc", "csv"] : List String)) :
    parseFile pdfRes docxRes csvRes filename =
      .error ("Unsupported file type: " ++ fileExtension filename) ∧
    ((routeParsePhase
        (.error ("Unsupported file type: " ++ fileExtension filename))
        fallbackRes filename).1).text ≠ [] ∧
    (routeParsePhase
        (.error ("Unsupported file type: " ++ fileExtension filename))
        fallbackRes filename).2 ≠ [] := by
  refine ⟨?_, ?_, ?_⟩
  · unfold parseFile
    split
    · rename_i heq
      exact absurd (by simp [heq] : fileExtension filename ∈
        (["pdf", "docx", "doc", "csv"] : List String)) hext
    · rename_i heq
      exact absurd (by simp [heq] : fileExtension filename ∈
        (["pdf", "docx", "doc", "csv"] : List String)) hext
    · rename_i heq
      exact absurd (by simp [heq] : fileExtension filename ∈
        (["pdf", "docx", "doc", "csv"] : List String)) hext
    · rename_i heq
      exact absurd (by simp [heq] : fileExtension filename ∈
        (["pdf", "docx", "doc", "csv"] : List String)) hext
    · rfl
  · unfold routeParsePhase
    rcases fallbackRes with m2 | fb
    · dsimp only
      split
      · simp [String.toList]
      · simp [String.toList]
    · dsimp only
      split
      · split
        · rename_i hlen
          intro hnil
          rw [hnil] at hlen
          simp [jsTrim] at hlen
        · simp [String.toList]
      · simp [String.toList]
  · unfold routeParsePhase
    rcases fallbackRes with m2 | fb
    · dsimp only
      split
      · simp
      · simp
    · dsimp only
      split
      · split
        · simp
        · simp
      · simp

/-- C1 witness at a concrete input. -/
theorem C1_witness :
    fileExtension "report.md" ∉ (["pdf", "docx", "doc", "csv"] : List String) ∧
    (parseFile (.error "x") (.error "x") (.error "x") "report.md" =
      .error ("Unsupported file type: " ++ fileExtension "report.md") ∧
    ((routeParsePhase
        (.error ("Unsupported file type: " ++ fileExtension "report.md"))
        (.error "y") "report.md").1).text ≠ [] ∧
    (routeParsePhase
        (.error ("Unsupported file type: " ++ fileExtension "report.md"))
        (.error "y") "report.md").2 ≠ []) :=
  ⟨by decide,
   C1_theorem "report.md" (.error "x") (.error "x") (.error "x") (.error "y")
     (by decide)⟩

/-! ## Claim C6: duplicate short-circuit -/

/-- C6: with `forceUpload = false`, when the duplicate lookup finds a
match (the store query returns a record and the stats call succeeds), the
ingestion call returns the duplicate-file shape carrying the existing
record's filename, upload timestamp and chunk/vector counts, and performs
no extraction, embedding or upsert calls. -/
theorem C6_theorem (input : IngestInput) (m : MatchMeta) (ms : List MatchMeta)
    (hvalid : ¬(input.blobUrl = "" ∨ input.filename = "" ∨
      input.indexName = "" ∨ input.topic = "" ∨ input.source = ""))
    (hblob : input.blobFetch = .ok ())
    (hforce : input.forceUpload = false)
    (hq : input.dupQueryRes = .ok (m :: ms))
    (hst : input.dupStatsRes = .ok ()) :
    ingestPipeline input = some
      { outcome := .duplicate
          { filename := m.filename,
            uploaded_at := if m.uploaded_at = "" then input.nowIso
              else m.uploaded_at,
            namespace_ := if input.namespace_ = "" then ""
              else input.namespace_,
            chunks_count := input.dupFileStats.chunks_count,
            vectors_count := input.dupFileStats.vectors_count },
        ranExtract := false, ranEmbed := false, ranUpsert := false,
        embedCalls := 0, upsertCalls := 0 } := by
  unfold ingestPipeline
  rw [if_neg hvalid, hblob]
  dsimp only
  rw [hforce]
  simp only [Bool.false_eq_true, if_false]
  unfold checkDuplicateFile
  rw [hq, hst]

/-- C6 witness at a concrete input. -/
def c6Input : IngestInput :=
  { c1Input with
    dupQueryRes := .ok [{ filename := "old.pdf", uploaded_at := "2024-01-01" }],
    dupFileStats := ⟨7, 7⟩ }

/-- C6 witness: the concrete duplicate input short-circuits. -/
theorem C6_witness :
    ¬(c6Input.blobUrl = "" ∨ c6Input.filename = "" ∨ c6Input.indexName = "" ∨
      c6Input.topic = "" ∨ c6Input.source = "") ∧
    c6Input.blobFetch = .ok () ∧ c6Input.forceUpload = false ∧
    c6Input.dupQueryRes =
      .ok [{ filename := "old.pdf", uploaded_at := "2024-01-01" }] ∧
    c6Input.dupStatsRes = .ok () ∧
    ingestPipeline c6Input = some
      { outcome := .duplicate
          { filename := "old.pdf",
            uploaded_at := if ("2024-01-01" : String) = "" then c6Input.nowIso
              else "2024-01-01",
            namespace_ := if c6Input.namespace_ = "" then ""
              else c6Input.namespace_,
            chunks_count := c6Input.dupFileStats.chunks_count,
            vectors_count := c6Input.dupFileStats.vectors_count },
        ranExtract := false, ranEmbed := false, ranUpsert := false,
        embedCalls := 0, upsertCalls := 0 } :=
  ⟨by decide, rfl, rfl, rfl, rfl,
   C6_theorem c6Input { filename := "old.pdf", uploaded_at := "2024-01-01" }
     [] (by decide) rfl rfl rfl rfl⟩

/-! ## Claim C9: a failing duplicate query never aborts ingestion -/

/-- C9: when the store query inside `checkDuplicateFile` raises, the
helper returns `null` ("assume no duplicate"), and the ingestion pipeline
— with a terminating chunker configuration — proceeds to run extraction,
embedding and upsert as if the file were new; the outcome is never the
duplicate rejection. -/
theorem C9_theorem (input : IngestInput) (e : String)
    (hvalid : ¬(input.blobUrl = "" ∨ input.filename = "" ∨
      input.indexName = "" ∨ input.topic = "" ∨ input.source = ""))
    (hblob : input.blobFetch = .ok ())
    (hforce : input.forceUpload = false)
    (hq : input.dupQueryRes = .error e)
    (hcs : 1 ≤ input.chunkSize) :
    checkDuplicateFile input.dupQueryRes input.dupStatsRes input.dupFileStats
      input.namespace_ input.nowIso = none ∧
    (ingestPipeline input).isSome ∧
    ∀ tr, ingestPipeline input = some tr →
      tr.ranExtract = true ∧ tr.ranEmbed = true ∧ tr.ranUpsert = true ∧
      ∀ d, tr.outcome ≠ .duplicate d := by
  have hnone : checkDuplicateFile input.dupQueryRes input.dupStatsRes
      input.dupFileStats input.namespace_ input.nowIso = none := by
    rw [hq]
    rfl
  refine ⟨hnone, ?_⟩
  have hpipe : ∃ chunks, chunkText (routeParsePhase
        (parseFile input.pdfRes input.docxRes input.csvRes input.filename)
        input.fallbackRes input.filename).1.text
      ⟨input.chunkSize, input.overlap, input.useHeadings⟩ none = some chunks :=
    Option.isSome_iff_exists.mp (chunkText_isSome _ _ _ hcs)
  obtain ⟨chunks, hchunks⟩ := hpipe
  have hmain : ∀ tr', (∀ tr, some tr' = some tr →
      tr.ranExtract = true ∧ tr.ranEmbed = true ∧ tr.ranUpsert = true ∧
      ∀ d, tr.outcome ≠ .duplicate d) →
      (ingestPipeline input = some tr' →
        (ingestPipeline input).isSome ∧
        ∀ tr, ingestPipeline input = some tr →
          tr.ranExtract = true ∧ tr.ranEmbed = true ∧ tr.ranUpsert = true ∧
          ∀ d, tr.outcome ≠ .duplicate d) := by
    intro tr' htr' heq
    constructor
    · rw [heq]; rfl
    · intro tr htr
      exact htr' tr (heq ▸ htr)
  have hrun : ∃ tr', ingestPipeline input = some tr' ∧
      tr'.ranExtract = true ∧ tr'.ranEmbed = true ∧ tr'.ranUpsert = true ∧
      (∀ d, tr'.outcome ≠ .duplicate d) := by
    unfold ingestPipeline
    rw [if_neg hvalid, hblob]
    dsimp only
    rw [hforce]
    simp only [Bool.false_eq_true, if_false]
    rw [hnone]
    dsimp only
    rw [hchunks]
    dsimp only
    rcases hup : upsertVectors input.store (buildVectors input
        (routeParsePhase (parseFile input.pdfRes input.docxRes input.csvRes
          input.filename) input.fallbackRes input.filename).1 chunks
        (embedStage input.embOracle input.dimensions
          (chunks.map (·.text))).1).length with ⟨r, upCalls⟩
    rw [hup]
    cases r with
    | ok pair =>
      rcases pair with ⟨total, batches⟩
      exact ⟨_, rfl, rfl, rfl, rfl, fun d h => by cases h⟩
    | error msg =>
      exact ⟨_, rfl, rfl, rfl, rfl, fun d h => by cases h⟩
  obtain ⟨tr', heq, h1, h2, h3, h4⟩ := hrun
  constructor
  · rw [heq]; rfl
  · intro tr htr
    rw [heq] at htr
    injection htr with htr
    subst htr
    exact ⟨h1, h2, h3, h4⟩

/-- Concrete input whose duplicate query raises. -/
def c9Input : IngestInput :=
  { c1Input with dupQueryRes := .error "connection refused" }

/-- C9 witness at a concrete input. -/
theorem C9_witness :
    ¬(c9Input.blobUrl = "" ∨ c9Input.filename = "" ∨ c9Input.indexName = "" ∨
      c9Input.topic = "" ∨ c9Input.source = "") ∧
    c9Input.blobFetch = .ok () ∧ c9Input.forceUpload = false ∧
    c9Input.dupQueryRes = .error "connection refused" ∧ 1 ≤ c9Input.chunkSize ∧
    (checkDuplicateFile c9Input.dupQueryRes c9Input.dupStatsRes
      c9Input.dupFileStats c9Input.namespace_ c9Input.nowIso = none ∧
    (ingestPipeline c9Input).isSome ∧
    ∀ tr, ingestPipeline c9Input = some tr →
      tr.ranExtract = true ∧ tr.ranEmbed = true ∧ tr.ranUpsert = true ∧
      ∀ d, tr.outcome ≠ .duplicate d) :=
  ⟨by decide, rfl, rfl, rfl, by decide,
   C9_theorem c9Input "connection refused" (by decide) rfl rfl rfl (by decide)⟩

/-! ## Claim C7: table padding and separator row -/

theorem mem_intersperse {sep : List Char} :
    ∀ (xs : List (List Char)) (l : List Char),
      l ∈ xs.intersperse sep → l = sep ∨ l ∈ xs := by
  intro xs
  induction xs with
  | nil => intro l h; simp at h
  | cons b tl ih =>
    intro l h
    cases tl with
    | nil =>
      simp at h
      simp [h]
    | cons c tl2 =>
      rw [List.intersperse_cons_cons] at h
      rcases List.mem_cons.mp h with h1 | h1
      · simp [h1]
      · rcases List.mem_cons.mp h1 with h2 | h2
        · exact Or.inl h2
        · rcases ih l h2 with h3 | h3
          · exact Or.inl h3
          · exact Or.inr (by simp [List.mem_cons.mpr (Or.inr h3)])

theorem separatorRow_chars (maxWidths : List Nat) (row : List (List Char)) :
    ∀ ch ∈ separatorRow maxWidths row, ch = '-' ∨ ch = '|' := by
  intro ch hch
  unfold separatorRow at hch
  rw [show List.intercalate ('-' :: '|' :: ['-'])
      ((row.enum).map (fun x => List.replicate
        (min (maxWidths.getD x.1 0) 20) '-')) =
      (((row.enum).map (fun x => List.replicate
        (min (maxWidths.getD x.1 0) 20) '-')).intersperse
        ('-' :: '|' :: ['-'])).flatten from rfl] at hch
  rw [List.mem_flatten] at hch
  obtain ⟨l, hl, hchl⟩ := hch
  rcases mem_intersperse _ l hl with h1 | h1
  · subst h1
    simp at hchl
    tauto
  · rw [List.mem_map] at h1
    obtain ⟨x, _, hxl⟩ := h1
    rw [← hxl] at hchl
    exact Or.inl (List.eq_of_mem_replicate hchl)

/-- C7 (counterexample): a table block finalized by a **blank line** is
formatted by `formatTable(tableRows)` without the column count, so its
rows are not padded: on a 2-row block with maximum column count 3, the
second row renders as `"d | e "` (two cells), while the padded rendering
would have been `"d | e  |   "`. -/
theorem C7_counterexample :
    enhanceTableText ("a\tbb\tcc\nd\te\n\nrest".toList) =
      ("a | bb | cc\n--|----|---\nd | e \n\nrest").toList ∧
    (splitOnChar '\n'
        (enhanceTableText ("a\tbb\tcc\nd\te\n\nrest".toList))).get? 2 =
      some ("d | e ".toList) ∧
    (formatTable ["a\tbb\tcc".toList, "d\te".toList] (some 3)).get? 2 =
      some ("d | e  |   ".toList) ∧
    ("d | e ".toList ≠ "d | e  |   ".toList) := by
  refine ⟨rfl, rfl, rfl, by decide⟩

/-- C7 (amended): when `formatTable` receives the block's column count
(as it does when the block is finalized by a non-table line or by the end
of the document — not by a blank line), every row's cell list is padded to
exactly that count, and for a block of at least two rows the element at
index 1 of the formatted output (immediately after the first row) is a
separator made only of dashes and pipes. -/
theorem C7_theorem (rows : List (List Char)) (ec : Nat)
    (hle : ∀ r ∈ rows, ((splitOnChar '\t' r).map jsTrim).length ≤ ec) :
    (∀ r ∈ rows, (tableCols (some ec) r).length = ec) ∧
    ∀ r0 r1 rest, rows = r0 :: r1 :: rest →
      ((formatTable rows (some ec)).get? 1).isSome ∧
      ∀ s, (formatTable rows (some ec)).get? 1 = some s →
        s ≠ [] → ∀ ch ∈ s, ch = '-' ∨ ch = '|' := by
  constructor
  · intro r hr
    unfold tableCols
    have := hle r hr
    simp only [List.length_append, List.length_replicate]
    omega
  · intro r0 r1 rest hrows
    subst hrows
    unfold formatTable
    dsimp only
    constructor
    · simp
    · intro s hs _ ch hch
      simp only [List.cons_ne_nil, ne_eq, not_false_eq_true, if_true,
        List.singleton_append, List.get?] at hs
      rw [Option.some.injEq] at hs
      subst hs
      exact separatorRow_chars _ _ ch hch

/-- C7 witness at a concrete input. -/
theorem C7_witness :
    (∀ r ∈ (["a\tbb\tcc".toList, "d\te".toList] : List (List Char)),
      ((splitOnChar '\t' r).map jsTrim).length ≤ 3) ∧
    (∀ r ∈ (["a\tbb\tcc".toList, "d\te".toList] : List (List Char)),
      (tableCols (some 3) r).length = 3) ∧
    ∀ r0 r1 rest,
      (["a\tbb\tcc".toList, "d\te".toList] : List (List Char)) =
        r0 :: r1 :: rest →
      ((formatTable ["a\tbb\tcc".toList, "d\te".toList] (some 3)).get? 1).isSome ∧
      ∀ s, (formatTable ["a\tbb\tcc".toList, "d\te".toList]
          (some 3)).get? 1 = some s →
        s ≠ [] → ∀ ch ∈ s, ch = '-' ∨ ch = '|' :=
  ⟨by decide,
   C7_theorem ["a\tbb\tcc".toList, "d\te".toList] 3 (by decide)⟩

end Finetuneana
